import Mathlib

/-!
Verification of the amplify-cli repository's natural-language specification
against a shallow embedding of its code.

Source files embedded directly:
* `src/unnamed/part_000` — the core index module (export surface).
* `src/packages/amplify-category-xr/lib/xr-manager.js` — XR scene management
  helpers (`isSceneNameValid`, `getRegionFromHost`, `isXRSetup`,
  `getExistingScenes`).

The implementations of the GraphQL transform engine (`GraphQLTransform`,
`TransformerContext`, `Transformer`, `collectDirectiveNames`,
`stripDirectives`, `util/amplifyUtils`) are only re-exported by
`src/unnamed/part_000`; their code is not in the examined sources, so those
components are modelled from the specification (`spec.md`, sections 3, 4
and 8).  Every such definition carries a doc comment starting with
"Modelled from the spec:".
-/

/-! ## Core index module export surface (src/unnamed/part_000, lines 20–31) -/

/-- Named exports of the core index module, exactly as written in
`src/unnamed/part_000` lines 20–31.  The module additionally has a default
export (`GraphQLTransform`) and a wildcard re-export of the error module;
neither introduces any of the names at issue in the claims. -/
def coreModuleNamedExports : List String :=
  ["TransformerContext", "Transformer", "collectDirectiveNames",
   "stripDirectives", "buildAPIProject", "migrateAPIProject",
   "uploadAPIProject", "readProjectSchema", "readProjectConfiguration",
   "revertAPIMigration"]

/-! ## XR manager: scene name validation (xr-manager.js, lines 270–275) -/

/-- Truthiness of a JavaScript string: a string is truthy iff non-empty.
Strings are embedded as `List Char` (JS strings at the relevant call sites
are ASCII). -/
def jsStringTruthy (s : List Char) : Bool := !s.isEmpty

/-- Character-class test of the regex `[a-zA-Z0-9]` from
`/^[a-zA-Z0-9]+$/i` in `isSceneNameValid` (xr-manager.js line 274); the
`i` flag is redundant because both letter cases are in the class. -/
def alphaNumCharTest (c : Char) : Bool :=
  (97 ≤ c.val && c.val ≤ 122) || (65 ≤ c.val && c.val ≤ 90) ||
    (48 ≤ c.val && c.val ≤ 57)

/-- Embedding of `/^[a-zA-Z0-9]+$/i.test(s)`: the anchored pattern matches
exactly the non-empty strings all of whose characters are in the class
(JavaScript `$` without the `m` flag matches only at the very end of the
input). -/
def regexAlphaNumTest (s : List Char) : Bool :=
  !s.isEmpty && s.all alphaNumCharTest

/-- Embedding of `isSceneNameValid` (xr-manager.js lines 270–275):
`sceneName && sceneName.length >= 3 && sceneName.length <= 20 &&
/^[a-zA-Z0-9]+$/i.test(sceneName)`, read as a boolean predicate
(the JS function returns a truthy value exactly when this is `true`). -/
def isSceneNameValid (s : List Char) : Bool :=
  jsStringTruthy s && decide (3 ≤ s.length) && decide (s.length ≤ 20) &&
    regexAlphaNumTest s

/-! ## XR manager: amplify-meta context (xr-manager.js, lines 74–88) -/

/-- Embedding of the part of the CLI `context` object that `isXRSetup` and
`getExistingScenes` read: `context.exeInfo.amplifyMeta`, a JS object mapping
category names to category entries.  A category entry is itself a JS object
(resource name → resource info); JS objects are embedded as ordered
key–value lists, and a present entry is always truthy (it is an object). -/
structure AmplifyContext where
  amplifyMeta : List (String × List (String × String))

/-- Property lookup on an embedded JS object: `m[k]` is the value at the
first matching key, `undefined` (here `none`) when absent. -/
def jsObjLookup {α : Type} (m : List (String × α)) (k : String) : Option α :=
  (m.find? (fun kv => kv.1 == k)).map (fun kv => kv.2)

/-- Embedding of `isXRSetup` (xr-manager.js lines 74–77):
`return amplifyMeta[constants.CategoryName]` read as a boolean — truthy iff
the category entry is present.  The value of `constants.CategoryName`
(defined in constants.js, not among the examined sources) is passed as the
`catName` parameter; no claim depends on its concrete value. -/
def isXRSetup (catName : String) (ctx : AmplifyContext) : Bool :=
  (jsObjLookup ctx.amplifyMeta catName).isSome

/-- Embedding of `getExistingScenes` (xr-manager.js lines 79–88): starts
with `result = []`, and when `isXRSetup` and the (redundantly re-checked)
category entry is present, sets `result = Object.keys(entry)`. -/
def getExistingScenes (catName : String) (ctx : AmplifyContext) :
    List String :=
  if isXRSetup catName ctx then
    match jsObjLookup ctx.amplifyMeta catName with
    | some entry => entry.map (fun kv => kv.1)
    | none => []
  else []

/-! ## XR manager: region extraction (xr-manager.js, lines 257–268) -/

/-- Characters of the literal `sumerian.` in the regex
`/sumerian\.([^.]*)\.amazonaws/` of `getRegionFromHost`
(xr-manager.js line 261). -/
def sumChars : List Char :=
  ['s', 'u', 'm', 'e', 'r', 'i', 'a', 'n', '.']

/-- Characters of the literal `.amazonaws` in the same regex. -/
def amzChars : List Char :=
  ['.', 'a', 'm', 'a', 'z', 'o', 'n', 'a', 'w', 's']

/-- Boolean test that `p` is an initial segment of `s`. -/
def listStartsWith : List Char → List Char → Bool
  | [], _ => true
  | _ :: _, [] => false
  | p :: ps, c :: cs => (p == c) && listStartsWith ps cs

/-- Match of `/sumerian\.([^.]*)\.amazonaws/` anchored at the start of `s`,
returning the capture group.  Because `[^.]*` cannot consume a dot and must
be followed by the literal dot of `.amazonaws`, the only candidate for the
capture group at a given position is the maximal dot-free run following
`sumerian.`; the match succeeds iff that run is followed by
`.amazonaws`. -/
def matchSumerianAt (s : List Char) : Option (List Char) :=
  if listStartsWith sumChars s then
    let rest := s.drop sumChars.length
    let r := rest.takeWhile (fun c => c != '.')
    if listStartsWith amzChars (rest.drop r.length) then some r else none
  else none

/-- Embedding of `getRegionFromHost` (xr-manager.js lines 257–268):
`regex.exec(host)` scans for the leftmost match of
`/sumerian\.([^.]*)\.amazonaws/`; the function returns the capture group of
that match, or `null` (`none`) when there is no match.  The function is
total — it never throws. -/
def getRegionFromHost : List Char → Option (List Char)
  | [] => none
  | c :: cs =>
    match matchSumerianAt (c :: cs) with
    | some r => some r
    | none => getRegionFromHost cs

/-- Specification-side predicate: host `h` contains, starting at index `i`,
a substring of the form `sumerian.<r>.amazonaws` with `<r>` free of
dots. -/
def sumerianOccursAt (h : List Char) (i : Nat) (r : List Char) : Prop :=
  '.' ∉ r ∧ ∃ t, h.drop i = sumChars ++ (r ++ (amzChars ++ t))

/-! ## GraphQL transform engine, modelled from the spec

The implementations re-exported by `src/unnamed/part_000`
(`GraphQLTransform`, `TransformerContext`, `Transformer`,
`collectDirectiveNames`, `stripDirectives`, `util/amplifyUtils`) are not
among the examined sources; the definitions in this section are modelled
from `spec.md` §3 (data model), §4.2–§4.7 (component design) and §7
(error taxonomy). -/

/-- Modelled from the spec: a directive usage — `(directiveName,
arguments)` attached to a type or field node (§3, DirectiveUsage); the
owning-node reference is the position in the AST. -/
structure DirectiveUsage where
  name : String
  args : List (String × String)
deriving DecidableEq, Repr

/-- Modelled from the spec: the node kinds of a schema definition
(§3, SchemaDocument: type/interface/enum/input/union/scalar). -/
inductive TypeKind where
  | objectType
  | interfaceType
  | enumType
  | inputType
  | unionType
  | scalarType
deriving DecidableEq, Repr

/-- Modelled from the spec: a field — name, type reference, nullability,
and its ordered directive usages (§3). -/
structure FieldDef where
  name : String
  fieldType : String
  nonNull : Bool
  directives : List DirectiveUsage
deriving DecidableEq, Repr

/-- Modelled from the spec: a type definition with ordered fields and
ordered directive usages; declaration order is significant (§3). -/
structure TypeDef where
  name : String
  kind : TypeKind
  directives : List DirectiveUsage
  fields : List FieldDef
deriving DecidableEq, Repr

/-- Modelled from the spec: the parsed AST — an ordered sequence of type
definitions (§3, SchemaDocument). -/
abbrev SchemaDocument := List TypeDef

/-- Modelled from the spec: the names of standard (non-custom) directives
of the schema definition language; `stripDirectives` must never remove
these (§3 invariants, §4.3). -/
def standardDirectiveNames : List String :=
  ["deprecated", "skip", "include", "specifiedBy"]

/-- Test for a standard directive name. -/
def isStandardDirective (n : String) : Bool :=
  standardDirectiveNames.contains n

/-- Keep only standard directive usages of one node. -/
def stripUsages (ds : List DirectiveUsage) : List DirectiveUsage :=
  ds.filter (fun d => isStandardDirective d.name)

/-- Strip custom directive usages from a field. -/
def stripFieldDef (f : FieldDef) : FieldDef :=
  { f with directives := stripUsages f.directives }

/-- Strip custom directive usages from a type and its fields. -/
def stripTypeDef (t : TypeDef) : TypeDef :=
  { t with directives := stripUsages t.directives,
           fields := t.fields.map stripFieldDef }

/-- Modelled from the spec: DirectiveStripper — a new document with all
non-standard directive usages removed from every node, all other structure
(names, types, nullability, ordering) unchanged (§4.3). -/
def stripDirectives (s : SchemaDocument) : SchemaDocument :=
  s.map stripTypeDef

/-- Directive-free skeleton of a field: name, type, nullability. -/
def fieldSkeleton (f : FieldDef) : String × String × Bool :=
  (f.name, f.fieldType, f.nonNull)

/-- Directive-free skeleton of a type: name, kind, field skeletons in
order. -/
def typeSkeleton (t : TypeDef) : String × TypeKind × List (String × String × Bool) :=
  (t.name, t.kind, t.fields.map fieldSkeleton)

/-- Directive-free skeleton of a whole document, in declaration order. -/
def docSkeleton (s : SchemaDocument) :
    List (String × TypeKind × List (String × String × Bool)) :=
  s.map typeSkeleton

/-- All directive names of one type definition, type-level then
field-level. -/
def typeDirectiveNames (t : TypeDef) : List String :=
  t.directives.map (fun d => d.name) ++
    t.fields.flatMap (fun f => f.directives.map (fun d => d.name))

/-- Modelled from the spec: DirectiveCollector — the set of distinct
custom directive names present anywhere in the document (type-level and
field-level), deduplicated (§2, §4.2, §8). -/
def collectDirectiveNames (s : SchemaDocument) : List String :=
  ((s.flatMap typeDirectiveNames).filter
    (fun n => !isStandardDirective n)).dedup

/-- Specification-side predicate: directive name `n` occurs somewhere in
the document, on a type or on a field. -/
def directiveOccursIn (n : String) (s : SchemaDocument) : Prop :=
  ∃ t ∈ s, (∃ d ∈ t.directives, d.name = n) ∨
    ∃ f ∈ t.fields, ∃ d ∈ f.directives, d.name = n

/-- Modelled from the spec: the error taxonomy of §7. -/
inductive TransformError where
  | schemaParseError (msg : String)
  | unknownDirectiveError (name : String)
  | resourceNameCollisionError (name : String)
  | transformerError (msg : String)
  | migrationConflictError
  | deploymentError (msg : String)
  | projectNotFoundError
  | revertError
deriving DecidableEq, Repr

/-- Modelled from the spec: a generated resource — name (unique within the
artifact), category tag, definition payload, and whether the resource holds
persisted data (used to classify destructive migration steps, §3, §6). -/
structure Resource where
  name : String
  category : String
  defn : String
  stateful : Bool
deriving DecidableEq, Repr

/-- Modelled from the spec: the mutations Transformers may perform on the
shared TransformerContext (§4.4): add-resource, add-resolver-binding,
annotate-type, record-diagnostic. -/
inductive CtxAction where
  | addResource (res : Resource)
  | addResolverBinding (fieldRef : String) (resolver : String)
  | annotateType (typeName : String) (metadata : List (String × String))
  | recordDiagnostic (fatal : Bool) (msg : String)
deriving DecidableEq, Repr

/-- Modelled from the spec: TransformerContext — the shared mutable build
state of one pipeline run: generated resources, resolver bindings, type
metadata, ordered diagnostics, and the first fatal error if any (§3, §4.4),
seeded with the parsed AST. -/
structure TransformerContext where
  inputSchema : SchemaDocument
  resources : List Resource
  resolverBindings : List (String × String)
  typeMetadata : List (String × List (String × String))
  diagnostics : List (Bool × String)
  fatalError : Option TransformError
deriving DecidableEq, Repr

/-- Fresh context for one pipeline run (§4.6 step 3). -/
def freshContext (s : SchemaDocument) : TransformerContext :=
  ⟨s, [], [], [], [], none⟩

/-- Record a fatal error; the first fatal error recorded wins (§4.6
step 7 returns "the fatal error plus any diagnostics recorded before
it"). -/
def setFatal (ctx : TransformerContext) (e : TransformError) :
    TransformerContext :=
  match ctx.fatalError with
  | some _ => ctx
  | none => { ctx with fatalError := some e }

/-- Merge per-key metadata: later annotations merge rather than overwrite,
last-writer-wins per individual key (§4.4). -/
def mergeMeta (old md : List (String × String)) : List (String × String) :=
  old.filter (fun kv => md.all (fun kv2 => kv2.1 != kv.1)) ++ md

/-- Merge an annotation into the per-type metadata map. -/
def annotateMeta (tm : List (String × List (String × String)))
    (n : String) (md : List (String × String)) :
    List (String × List (String × String)) :=
  if tm.any (fun kv => kv.1 == n) then
    tm.map (fun kv => if kv.1 == n then (kv.1, mergeMeta kv.2 md) else kv)
  else tm ++ [(n, md)]

/-- Modelled from the spec: the effect of one context mutation (§4.4).
`add-resource` fails with `ResourceNameCollisionError` when the name is
already present (the resource is not added); a fatal diagnostic records a
fatal `TransformerError`. -/
def applyAction (ctx : TransformerContext) (a : CtxAction) :
    TransformerContext :=
  match a with
  | .addResource r =>
    if ctx.resources.any (fun r0 => r0.name == r.name) then
      setFatal ctx (.resourceNameCollisionError r.name)
    else { ctx with resources := ctx.resources ++ [r] }
  | .addResolverBinding f rv =>
    { ctx with resolverBindings := ctx.resolverBindings ++ [(f, rv)] }
  | .annotateType n md =>
    { ctx with typeMetadata := annotateMeta ctx.typeMetadata n md }
  | .recordDiagnostic fatal msg =>
    let ctx1 := { ctx with diagnostics := ctx.diagnostics ++ [(fatal, msg)] }
    if fatal then setFatal ctx1 (.transformerError msg) else ctx1

/-- Apply a sequence of context mutations in order. -/
def applyActions (ctx : TransformerContext) (as2 : List CtxAction) :
    TransformerContext :=
  as2.foldl applyAction ctx

/-- Modelled from the spec: a Transformer — name, bound directive names,
per-node-kind visit hooks, and optional global before/after hooks (§3,
§4.5).  A hook receives the AST node, the triggering DirectiveUsage and the
shared context, and yields the context mutations it performs. -/
structure Transformer where
  name : String
  boundDirectives : List String
  onObjectType : TypeDef → DirectiveUsage → TransformerContext → List CtxAction
  onInterfaceType : TypeDef → DirectiveUsage → TransformerContext → List CtxAction
  onEnumType : TypeDef → DirectiveUsage → TransformerContext → List CtxAction
  onInputType : TypeDef → DirectiveUsage → TransformerContext → List CtxAction
  onUnionType : TypeDef → DirectiveUsage → TransformerContext → List CtxAction
  onField : TypeDef → FieldDef → DirectiveUsage → TransformerContext → List CtxAction
  before : TransformerContext → List CtxAction
  after : TransformerContext → List CtxAction

/-- Modelled from the spec: the AST nodes visited by the walk — each type
definition, then each of its fields, in declaration order (§4.6 step 5). -/
inductive ASTNode where
  | typeNode (t : TypeDef)
  | fieldNode (parent : TypeDef) (f : FieldDef)
deriving DecidableEq, Repr

/-- Depth-first node sequence of a document in declaration order: each type
followed by its fields (§4.6 step 5). -/
def nodesOf (s : SchemaDocument) : List ASTNode :=
  s.flatMap (fun t => ASTNode.typeNode t :: t.fields.map (ASTNode.fieldNode t))

/-- Directive usages attached to a node, in declaration order. -/
def nodeDirectives : ASTNode → List DirectiveUsage
  | .typeNode t => t.directives
  | .fieldNode _ f => f.directives

/-- Dispatch to the hook matching the node's kind (§4.5, §4.6 step 5);
scalar types have no hook in the capability contract, so a scalar node
contributes no mutation. -/
def hookFor (t : Transformer) (node : ASTNode) :
    DirectiveUsage → TransformerContext → List CtxAction :=
  match node with
  | .typeNode td =>
    match td.kind with
    | .objectType => t.onObjectType td
    | .interfaceType => t.onInterfaceType td
    | .enumType => t.onEnumType td
    | .inputType => t.onInputType td
    | .unionType => t.onUnionType td
    | .scalarType => fun _ _ => []
  | .fieldNode td f => t.onField td f

/-- Registered transformers bound to a directive name, paired with their
registration index, in registration order (§4.6 step 5, inner loop). -/
def boundTransformers (ts : List Transformer) (d : String) :
    List (Nat × Transformer) :=
  ts.enum.filter (fun it => it.2.boundDirectives.contains d)

/-- One recorded hook invocation: which transformer (registration index and
name) ran on which node for which directive usage. -/
structure HookCall where
  transformerIdx : Nat
  transformerName : String
  node : ASTNode
  usage : DirectiveUsage
deriving DecidableEq, Repr

/-- Result of a stretch of the pipeline: the context reached, the hook
invocations in order, and the context mutations executed in order. -/
structure StepOut where
  ctx : TransformerContext
  trace : List HookCall
  acts : List CtxAction

/-- Modelled from the spec: invoke, for one directive usage on one node,
every bound transformer in registration order (§4.6 step 5, inner loop). -/
def runHooks (node : ASTNode) (u : DirectiveUsage) :
    List (Nat × Transformer) → TransformerContext → StepOut
  | [], ctx => ⟨ctx, [], []⟩
  | (i, t) :: rest, ctx =>
    let acts := hookFor t node u ctx
    let o := runHooks node u rest (applyActions ctx acts)
    ⟨o.ctx, ⟨i, t.name, node, u⟩ :: o.trace, acts ++ o.acts⟩

/-- Modelled from the spec: process the directive usages of one node in
declaration order (§4.6 step 5, outer loop over usages). -/
def runUsages (ts : List Transformer) (node : ASTNode) :
    List DirectiveUsage → TransformerContext → StepOut
  | [], ctx => ⟨ctx, [], []⟩
  | u :: us, ctx =>
    let o1 := runHooks node u (boundTransformers ts u.name) ctx
    let o2 := runUsages ts node us o1.ctx
    ⟨o2.ctx, o1.trace ++ o2.trace, o1.acts ++ o2.acts⟩

/-- Modelled from the spec: walk the nodes in declaration order; a fatal
diagnostic halts the run at the next safe checkpoint — the end of the
current node visit (§4.4, §4.6 step 5). -/
def walkNodes (ts : List Transformer) :
    List ASTNode → TransformerContext → StepOut
  | [], ctx => ⟨ctx, [], []⟩
  | n :: ns, ctx =>
    let o1 := runUsages ts n (nodeDirectives n) ctx
    if o1.ctx.fatalError.isSome then o1
    else
      let o2 := walkNodes ts ns o1.ctx
      ⟨o2.ctx, o1.trace ++ o2.trace, o1.acts ++ o2.acts⟩

/-- Modelled from the spec: invoke each registered transformer's `before`
hook once, in registration order (§4.6 step 4). -/
def beforePhase : List Transformer → TransformerContext → StepOut
  | [], ctx => ⟨ctx, [], []⟩
  | t :: rest, ctx =>
    let acts := t.before ctx
    let o := beforePhase rest (applyActions ctx acts)
    ⟨o.ctx, [], acts ++ o.acts⟩

/-- Modelled from the spec: invoke each registered transformer's `after`
hook once, in registration order, also when the walk halted on a fatal
diagnostic (§4.6 step 6). -/
def afterPhase : List Transformer → TransformerContext → StepOut
  | [], ctx => ⟨ctx, [], []⟩
  | t :: rest, ctx =>
    let acts := t.after ctx
    let o := afterPhase rest (applyActions ctx acts)
    ⟨o.ctx, [], acts ++ o.acts⟩

/-- Modelled from the spec: one full pipeline run over an already parsed
document — fresh context, before hooks, AST walk (skipped when a before
hook already recorded a fatal error), after hooks (§4.6 steps 3–6). -/
def runPipeline (s : SchemaDocument) (ts : List Transformer) : StepOut :=
  let o1 := beforePhase ts (freshContext s)
  let o2 :=
    if o1.ctx.fatalError.isSome then ⟨o1.ctx, [], []⟩
    else walkNodes ts (nodesOf s) o1.ctx
  let o3 := afterPhase ts o2.ctx
  ⟨o3.ctx, o2.trace, o1.acts ++ o2.acts ++ o3.acts⟩

/-- Names passed to `add-resource` calls, in execution order. -/
def addedNames (as2 : List CtxAction) : List String :=
  as2.filterMap (fun a =>
    match a with
    | .addResource r => some r.name
    | _ => none)

/-- Whether an executed action stream contains a fatal
`record-diagnostic`. -/
def hasFatalDiagnostic (as2 : List CtxAction) : Bool :=
  as2.any (fun a =>
    match a with
    | .recordDiagnostic true _ => true
    | _ => false)

/-- Modelled from the spec: DeploymentArtifact — named resource stacks
partitioned by resource category, plus resolver bindings (§3, §4.6
step 8). -/
structure DeploymentArtifact where
  resourceStacks : List (String × List Resource)
  resolverBindings : List (String × String)
deriving DecidableEq, Repr

/-- Partition the accumulated resources into stacks by category (§4.6
step 8). -/
def mkArtifact (ctx : TransformerContext) : DeploymentArtifact :=
  ⟨((ctx.resources.map (fun r => r.category)).dedup).map
      (fun c => (c, ctx.resources.filter (fun r => r.category == c))),
    ctx.resolverBindings⟩

/-- First collected directive name with no bound transformer among the
registered ones (§4.6 step 2). -/
def firstUnboundDirective (s : SchemaDocument) (ts : List Transformer) :
    Option String :=
  (collectDirectiveNames s).find?
    (fun d => !ts.any (fun t => t.boundDirectives.contains d))

/-- Successful pipeline output: the artifact plus accumulated non-fatal
diagnostics as warnings (§4.6 step 8). -/
structure TransformSuccess where
  artifact : DeploymentArtifact
  warnings : List String
deriving DecidableEq, Repr

/-- Modelled from the spec: the Pipeline Orchestrator's `transform` (§4.6
steps 2–8; step 1, parsing, is abstracted — the function takes the already
parsed SchemaDocument).  Any collected directive name without a bound
transformer is a fatal `UnknownDirectiveError` returned before the context
is even constructed; otherwise the run's first fatal error, if any, is
returned as the sole result, else the artifact with warnings. -/
def transform (s : SchemaDocument) (ts : List Transformer) :
    Except TransformError TransformSuccess :=
  match firstUnboundDirective s ts with
  | some d => .error (.unknownDirectiveError d)
  | none =>
    let o := runPipeline s ts
    match o.ctx.fatalError with
    | some e => .error e
    | none =>
      .ok ⟨mkArtifact o.ctx,
        (o.ctx.diagnostics.filter (fun p => !p.1)).map (fun p => p.2)⟩

/-- Declarative statement of the dispatch order of §4.6 step 5: nodes in
declaration order; per node, directive usages in declaration order (outer);
per usage, bound transformers in registration order (inner). -/
def canonicalTrace (s : SchemaDocument) (ts : List Transformer) :
    List HookCall :=
  (nodesOf s).flatMap (fun n =>
    (nodeDirectives n).flatMap (fun u =>
      (boundTransformers ts u.name).map (fun it =>
        ⟨it.1, it.2.name, n, u⟩)))

/-! ## Project lifecycle and migration, modelled from the spec (§4.7) -/

/-- Modelled from the spec: ProjectState — the persisted artifact plus the
backup recorded before the last successful migration (§3, §4.7). -/
structure ProjectState where
  artifact : DeploymentArtifact
  backup : Option DeploymentArtifact
deriving DecidableEq, Repr

/-- All resources of an artifact, across its stacks. -/
def artifactResources (a : DeploymentArtifact) : List Resource :=
  a.resourceStacks.flatMap (fun st => st.2)

/-- Modelled from the spec: MigrationPlan — disjoint create/update/delete
sets, updates and deletes tagged with whether the change is
data-destructive (§3). -/
structure MigrationPlan where
  creates : List Resource
  updates : List (Resource × Resource × Bool)
  deletes : List (Resource × Bool)
deriving DecidableEq, Repr

/-- Modelled from the spec: the diff of two artifacts (§4.7,
`migrateAPIProject`): resources only in the new artifact are created,
resources only in the old are deleted, resources in both with differing
definitions are updated.  The spec classifies destructiveness by example
rather than by rule, so the classifiers are taken as parameters: `dd r`
decides whether deleting `r` is data-destructive, `du old new` whether the
update from `old` to `new` is. -/
def computePlan (dd : Resource → Bool) (du : Resource → Resource → Bool)
    (oldArt newArt : DeploymentArtifact) : MigrationPlan :=
  let oldRs := artifactResources oldArt
  let newRs := artifactResources newArt
  ⟨newRs.filter (fun r => !oldRs.any (fun r0 => r0.name == r.name)),
    oldRs.filterMap (fun ro =>
      match newRs.find? (fun rn => rn.name == ro.name) with
      | some rn => if rn = ro then none else some (ro, rn, du ro rn)
      | none => none),
    (oldRs.filter (fun r => !newRs.any (fun r0 => r0.name == r.name))).map
      (fun r => (r, dd r))⟩

/-- A plan contains a delete or update classified data-destructive. -/
def hasDestructiveChange (p : MigrationPlan) : Bool :=
  p.deletes.any (fun d => d.2) || p.updates.any (fun u => u.2.2)

/-- Outcome of a migration attempt. -/
inductive MigrateOutcome where
  | success (plan : MigrationPlan)
  | failure (e : TransformError)
deriving DecidableEq, Repr

/-- Modelled from the spec: `migrateAPIProject` (§4.7) — run the
orchestrator on the new schema, diff against the current state's artifact;
if any delete/update is classified data-destructive and
`confirmDestructive` is false, fail with `MigrationConflictError` and apply
nothing.  The second component of the result is the persisted project
state after the call: it is the input state unchanged on every failure
(all-or-nothing), and the new state (with the old artifact as backup) on
success.  The registered transformers and the destructiveness classifiers
are taken as parameters. -/
def migrateAPIProject (dd : Resource → Bool)
    (du : Resource → Resource → Bool) (cur : ProjectState)
    (newSchema : SchemaDocument) (ts : List Transformer)
    (confirmDestructive : Bool) : MigrateOutcome × ProjectState :=
  match transform newSchema ts with
  | .error e => (.failure e, cur)
  | .ok s =>
    let plan := computePlan dd du cur.artifact s.artifact
    if hasDestructiveChange plan && !confirmDestructive then
      (.failure .migrationConflictError, cur)
    else
      (.success plan, ⟨s.artifact, some cur.artifact⟩)

/-- Modelled from the spec: `revertAPIMigration` (§4.7) — restore the
artifact recorded before the last successful migration, or fail with
`RevertError` when no backup exists. -/
def revertAPIMigration (st : ProjectState) :
    Except TransformError ProjectState :=
  match st.backup with
  | some a => .ok ⟨a, none⟩
  | none => .error .revertError

/-- Decidability of directive occurrence, used to evaluate witnesses. -/
instance (n : String) (s : SchemaDocument) :
    Decidable (directiveOccursIn n s) := by
  unfold directiveOccursIn
  infer_instance

/-! ## Concrete examples used by witnesses -/

/-- Example document: one object type with a custom type-level directive, a
custom field-level directive, and a standard field-level directive. -/
def exDoc : SchemaDocument :=
  [⟨"Todo", TypeKind.objectType, [⟨"model", []⟩],
    [⟨"id", "ID", true, [⟨"auth", []⟩]⟩,
     ⟨"name", "String", true, [⟨"deprecated", []⟩]⟩]⟩,
   ⟨"Tag", TypeKind.objectType, [⟨"model", []⟩], []⟩]

/-- Example transformer: bound to the given directive names, emitting the
given actions from its object-type hook and nothing from the others. -/
def mkTransformer (n : String) (dirs : List String)
    (acts : List CtxAction) : Transformer :=
  { name := n
    boundDirectives := dirs
    onObjectType := fun _ _ _ => acts
    onInterfaceType := fun _ _ _ => []
    onEnumType := fun _ _ _ => []
    onInputType := fun _ _ _ => []
    onUnionType := fun _ _ _ => []
    onField := fun _ _ _ _ => []
    before := fun _ => []
    after := fun _ => [] }

/-- Example document with a single object type carrying one custom
directive. -/
def exDoc2 : SchemaDocument :=
  [⟨"Todo", TypeKind.objectType, [⟨"model", []⟩], []⟩]

/-- Two example transformers bound to the same directive, in registration
order. -/
def exTransformersPair : List Transformer :=
  [mkTransformer "A" ["model"] [], mkTransformer "B" ["model"] []]

/-- Two example transformers bound to the same directive that both emit a
resource named `X`. -/
def exCollidingTransformers : List Transformer :=
  [mkTransformer "A" ["model"]
     [CtxAction.addResource ⟨"X", "storage", "defA", true⟩],
   mkTransformer "B" ["model"]
     [CtxAction.addResource ⟨"X", "storage", "defB", true⟩]]

/-! ## Theorems for claims C7, C8, C10 -/

/-- C7 (counterexample): the claim says the core module exposes the upload
entry point under the name `uploadDeployment`, but the named export list of
`src/unnamed/part_000` does not contain `uploadDeployment` — the internal
`uploadDeployment` is renamed to `uploadAPIProject` on export (line 9). -/
theorem core_export_uploadDeployment_missing :
    ("uploadDeployment" ∈ coreModuleNamedExports) = False := by
  simp [coreModuleNamedExports]

/-- C7 (amended): the core module's named exports include
`buildAPIProject`, `readProjectSchema`, `readProjectConfiguration`,
`migrateAPIProject`, `revertAPIMigration`, `collectDirectiveNames` and
`stripDirectives` under exactly those names, and expose the upload entry
point under the name `uploadAPIProject` rather than `uploadDeployment`. -/
theorem core_export_surface :
    "buildAPIProject" ∈ coreModuleNamedExports ∧
    "uploadAPIProject" ∈ coreModuleNamedExports ∧
    "readProjectSchema" ∈ coreModuleNamedExports ∧
    "readProjectConfiguration" ∈ coreModuleNamedExports ∧
    "migrateAPIProject" ∈ coreModuleNamedExports ∧
    "revertAPIMigration" ∈ coreModuleNamedExports ∧
    "collectDirectiveNames" ∈ coreModuleNamedExports ∧
    "stripDirectives" ∈ coreModuleNamedExports ∧
    "uploadDeployment" ∉ coreModuleNamedExports := by
  simp [coreModuleNamedExports]

/-- Bridge between the source regex character class and the specification's
"ASCII letter or digit" (`Char.isAlphanum`). -/
theorem alphaNumCharTest_eq_isAlphanum (c : Char) :
    alphaNumCharTest c = c.isAlphanum := by
  have hb : ∀ a b d : Bool, (a || b || d) = ((b || a) || d) := by decide
  simp only [alphaNumCharTest, Char.isAlphanum, Char.isAlpha, Char.isUpper,
    Char.isLower, Char.isDigit, ge_iff_le]
  exact hb _ _ _

/-- Non-emptiness reading of JS string truthiness. -/
theorem jsStringTruthy_iff (s : List Char) :
    (!s.isEmpty) = true ↔ s ≠ [] := by
  cases s <;> simp

/-- C8: `isSceneNameValid(s)` is true iff `s` is non-empty, has length
between 3 and 20 inclusive, and consists solely of ASCII letters and
digits. -/
theorem isSceneNameValid_charSpec (s : List Char) :
    isSceneNameValid s = true ↔
      s ≠ [] ∧ 3 ≤ s.length ∧ s.length ≤ 20 ∧ ∀ c ∈ s, c.isAlphanum := by
  simp only [isSceneNameValid, jsStringTruthy, regexAlphaNumTest,
    Bool.and_eq_true, jsStringTruthy_iff, decide_eq_true_eq,
    List.all_eq_true, alphaNumCharTest_eq_isAlphanum]
  constructor
  · rintro ⟨⟨⟨h1, h2⟩, h3⟩, _, h4⟩
    exact ⟨h1, h2, h3, h4⟩
  · rintro ⟨h1, h2, h3, h4⟩
    exact ⟨⟨⟨h1, h2⟩, h3⟩, h1, h4⟩

/-- C8 witness: a concrete valid scene name, accepted via the theorem. -/
theorem isSceneNameValid_charSpec_witness :
    isSceneNameValid ['M', 'y', 'S', 'c', 'e', 'n', 'e', '1'] = true :=
  (isSceneNameValid_charSpec _).mpr (by decide)

/-- C10: `getExistingScenes` returns `[]` whenever `isXRSetup` is falsy,
and otherwise returns exactly the keys of the amplify-meta XR category
entry. -/
theorem getExistingScenes_keys (catName : String) (ctx : AmplifyContext) :
    (isXRSetup catName ctx = false → getExistingScenes catName ctx = []) ∧
    (∀ entry, jsObjLookup ctx.amplifyMeta catName = some entry →
      getExistingScenes catName ctx = entry.map (fun kv => kv.1)) := by
  constructor
  · intro h
    simp [getExistingScenes, h]
  · intro entry h
    have hs : isXRSetup catName ctx = true := by
      simp [isXRSetup, h]
    simp [getExistingScenes, hs, h]

/-- C10 witness: a concrete context with two scenes configured. -/
theorem getExistingScenes_keys_witness :
    getExistingScenes "xr"
        ⟨[("xr", [("scene1", "a"), ("scene2", "b")])]⟩ =
      ["scene1", "scene2"] :=
  (getExistingScenes_keys "xr" _).2 [("scene1", "a"), ("scene2", "b")] rfl

/-! ## Lemmas and theorem for claim C9 -/

/-- Initial-segment test characterised as an append decomposition. -/
theorem listStartsWith_iff (p s : List Char) :
    listStartsWith p s = true ↔ ∃ t, s = p ++ t := by
  induction p generalizing s with
  | nil => simp [listStartsWith]
  | cons a ps ih =>
    cases s with
    | nil => simp [listStartsWith]
    | cons c cs =>
      simp only [listStartsWith, Bool.and_eq_true, beq_iff_eq, ih,
        List.cons_append, List.cons.injEq]
      constructor
      · rintro ⟨rfl, t, rfl⟩
        exact ⟨t, rfl, rfl⟩
      · rintro ⟨t, rfl, rfl⟩
        exact ⟨rfl, t, rfl⟩

/-- A dot-free block followed by a dot is exactly what
`takeWhile (· != '.')` keeps. -/
theorem takeWhile_dotfree_append (r rest : List Char) (hr : '.' ∉ r) :
    (r ++ '.' :: rest).takeWhile (fun c => c != '.') = r := by
  induction r with
  | nil => simp [List.takeWhile_cons]
  | cons a rs ih =>
    have ha : (a != '.') = true := by
      simp only [bne_iff_ne, ne_eq]
      intro h
      exact hr (by simp [h])
    have hrs : '.' ∉ rs := fun h => hr (List.mem_cons_of_mem _ h)
    rw [List.cons_append,
      @List.takeWhile_cons_of_pos Char (fun c => c != '.') a
        (rs ++ '.' :: rest) ha,
      ih hrs]

/-- Every list splits as its `takeWhile` part followed by the drop of that
part's length. -/
theorem takeWhile_drop_split (p : Char → Bool) (l : List Char) :
    l = l.takeWhile p ++ l.drop (l.takeWhile p).length := by
  induction l with
  | nil => rfl
  | cons a ls ih =>
    by_cases h : p a
    · simp only [List.takeWhile_cons_of_pos h, List.length_cons,
        List.drop_succ_cons, List.cons_append]
      exact congrArg (List.cons a) ih
    · simp [List.takeWhile_cons_of_neg h]

/-- Characterisation of an anchored match: `matchSumerianAt s` returns `r`
exactly when `s` carries an occurrence of `sumerian.<r>.amazonaws` at
index 0. -/
theorem matchSumerianAt_some_iff (s r : List Char) :
    matchSumerianAt s = some r ↔ sumerianOccursAt s 0 r := by
  constructor
  · intro h
    simp only [matchSumerianAt] at h
    split at h
    case isFalse => exact absurd h (by simp)
    case isTrue h1 =>
      split at h
      case isFalse => exact absurd h (by simp)
      case isTrue h2 =>
        obtain ⟨t0, rfl⟩ := (listStartsWith_iff _ _).1 h1
        rw [List.drop_left] at h h2
        obtain ⟨rfl⟩ := Option.some.inj h
        obtain ⟨t1, ht1⟩ := (listStartsWith_iff _ _).1 h2
        refine ⟨?_, t1, ?_⟩
        · intro hdot
          have := List.mem_takeWhile_imp hdot
          simp at this
        · rw [List.drop_zero]
          have hsplit := takeWhile_drop_split (fun c => c != '.') t0
          have heq : t0 = List.takeWhile (fun c => c != '.') t0 ++
              (amzChars ++ t1) := by
            conv_lhs => rw [hsplit]
            rw [ht1]
          conv_lhs => rw [heq]
  · rintro ⟨hdot, t, ht⟩
    rw [List.drop_zero] at ht
    subst ht
    have hamz : amzChars ++ t =
        '.' :: (['a', 'm', 'a', 'z', 'o', 'n', 'a', 'w', 's'] ++ t) := rfl
    have h1 : listStartsWith sumChars
        (sumChars ++ (r ++ (amzChars ++ t))) = true :=
      (listStartsWith_iff _ _).2 ⟨r ++ (amzChars ++ t), rfl⟩
    simp only [matchSumerianAt]
    rw [if_pos h1, List.drop_left, hamz,
      takeWhile_dotfree_append _ _ hdot, List.drop_left, ← hamz,
      if_pos ((listStartsWith_iff _ _).2 ⟨t, rfl⟩)]

/-- Occurrence at index `i` is an anchored match of the suffix at `i`. -/
theorem occursAt_iff_match (h : List Char) (i : Nat) (r : List Char) :
    sumerianOccursAt h i r ↔ matchSumerianAt (h.drop i) = some r := by
  rw [matchSumerianAt_some_iff]
  simp [sumerianOccursAt]

/-- An empty host has no occurrence. -/
theorem not_occursAt_nil (i : Nat) (r : List Char) :
    ¬ sumerianOccursAt [] i r := by
  rintro ⟨-, t, ht⟩
  rw [List.drop_nil] at ht
  exact absurd ht (by simp [sumChars])

/-- Occurrences in a cons shift to occurrences in the tail. -/
theorem occursAt_cons_succ (c : Char) (cs : List Char) (i : Nat)
    (r : List Char) :
    sumerianOccursAt (c :: cs) (i + 1) r ↔ sumerianOccursAt cs i r := by
  simp [sumerianOccursAt, List.drop_succ_cons]

/-- Helper for C9, success side: `getRegionFromHost` returns `r` exactly
when `r` is the capture of the leftmost occurrence. -/
theorem getRegionFromHost_some_iff (h r : List Char) :
    getRegionFromHost h = some r ↔
      ∃ i, sumerianOccursAt h i r ∧
        ∀ j r', sumerianOccursAt h j r' → i ≤ j := by
  induction h with
  | nil =>
    simp only [getRegionFromHost]
    constructor
    · intro hc
      exact absurd hc (by simp)
    · rintro ⟨i, hocc, -⟩
      exact absurd hocc (not_occursAt_nil i r)
  | cons c cs ih =>
    simp only [getRegionFromHost]
    cases hm : matchSumerianAt (c :: cs) with
    | some r0 =>
      simp only [Option.some.injEq]
      constructor
      · rintro rfl
        refine ⟨0, (matchSumerianAt_some_iff _ _).1 hm, fun j r' _ => Nat.zero_le j⟩
      · rintro ⟨i, hocc, hmin⟩
        have h0 : sumerianOccursAt (c :: cs) 0 r0 :=
          (matchSumerianAt_some_iff _ _).1 hm
        have hi0 : i = 0 := Nat.le_antisymm (hmin 0 r0 h0) (Nat.zero_le i)
        subst hi0
        have := (occursAt_iff_match _ 0 _).1 hocc
        rw [List.drop_zero, hm] at this
        exact Option.some.inj this
    | none =>
      rw [ih]
      constructor
      · rintro ⟨i, hocc, hmin⟩
        refine ⟨i + 1, (occursAt_cons_succ _ _ _ _).2 hocc, ?_⟩
        intro j r' hj
        match j with
        | 0 =>
          have := (occursAt_iff_match _ 0 _).1 hj
          rw [List.drop_zero, hm] at this
          exact absurd this (by simp)
        | k + 1 =>
          exact Nat.succ_le_succ
            (hmin k r' ((occursAt_cons_succ _ _ _ _).1 hj))
      · rintro ⟨i, hocc, hmin⟩
        match i with
        | 0 =>
          have := (occursAt_iff_match _ 0 _).1 hocc
          rw [List.drop_zero, hm] at this
          exact absurd this (by simp)
        | k + 1 =>
          refine ⟨k, (occursAt_cons_succ _ _ _ _).1 hocc, ?_⟩
          intro j r' hj
          exact Nat.le_of_succ_le_succ
            (hmin (j + 1) r' ((occursAt_cons_succ _ _ _ _).2 hj))

/-- Helper for C9, failure side: `getRegionFromHost` returns `none` exactly
when no occurrence exists anywhere in the host. -/
theorem getRegionFromHost_none_iff (h : List Char) :
    getRegionFromHost h = none ↔
      ∀ i r, ¬ sumerianOccursAt h i r := by
  induction h with
  | nil =>
    exact iff_of_true rfl (fun i r => not_occursAt_nil i r)
  | cons c cs ih =>
    simp only [getRegionFromHost]
    cases hm : matchSumerianAt (c :: cs) with
    | some r0 =>
      refine iff_of_false (by simp) ?_
      intro hall
      exact hall 0 r0 ((matchSumerianAt_some_iff _ _).1 hm)
    | none =>
      rw [ih]
      constructor
      · intro hall i r
        match i with
        | 0 =>
          intro hocc
          have := (occursAt_iff_match _ 0 _).1 hocc
          rw [List.drop_zero, hm] at this
          exact absurd this (by simp)
        | k + 1 =>
          intro hocc
          exact hall k r ((occursAt_cons_succ _ _ _ _).1 hocc)
      · intro hall i r hocc
        exact hall (i + 1) r ((occursAt_cons_succ _ _ _ _).2 hocc)

/-- C9: `getRegionFromHost(h)` returns `null` when `h` contains no
substring of the form `sumerian.<r>.amazonaws` with `<r>` free of dots,
and otherwise returns the captured region of the first (leftmost) such
occurrence.  Totality of the embedded function models that the JS function
never throws. -/
theorem getRegionFromHost_firstMatch (h : List Char) :
    (getRegionFromHost h = none ↔ ∀ i r, ¬ sumerianOccursAt h i r) ∧
    (∀ r, getRegionFromHost h = some r ↔
      ∃ i, sumerianOccursAt h i r ∧
        ∀ j r', sumerianOccursAt h j r' → i ≤ j) :=
  ⟨getRegionFromHost_none_iff h, fun r => getRegionFromHost_some_iff h r⟩

/-- C9 witness: on the concrete host `sumerian.us-west-2.amazonaws.com`
the function returns the region `us-west-2`, via the theorem applied at the
occurrence at index 0. -/
theorem getRegionFromHost_firstMatch_witness :
    getRegionFromHost
        ['s', 'u', 'm', 'e', 'r', 'i', 'a', 'n', '.', 'u', 's', '-', 'w',
         'e', 's', 't', '-', '2', '.', 'a', 'm', 'a', 'z', 'o', 'n', 'a',
         'w', 's', '.', 'c', 'o', 'm'] =
      some ['u', 's', '-', 'w', 'e', 's', 't', '-', '2'] :=
  ((getRegionFromHost_firstMatch _).2 _).mpr
    ⟨0, ⟨by decide, ⟨['.', 'c', 'o', 'm'], by decide⟩⟩,
      fun j r' _ => Nat.zero_le j⟩

/-! ## Lemmas and theorems for claims C1 and C2 -/

/-- Stripping a directive list twice equals stripping it once. -/
theorem stripUsages_idem (ds : List DirectiveUsage) :
    stripUsages (stripUsages ds) = stripUsages ds := by
  simp [stripUsages, List.filter_filter]

/-- Field stripping is idempotent. -/
theorem stripFieldDef_idem (f : FieldDef) :
    stripFieldDef (stripFieldDef f) = stripFieldDef f := by
  cases f
  simp [stripFieldDef, stripUsages_idem]

/-- Type stripping is idempotent. -/
theorem stripTypeDef_idem (t : TypeDef) :
    stripTypeDef (stripTypeDef t) = stripTypeDef t := by
  cases t
  simp [stripTypeDef, stripUsages_idem, List.map_map, Function.comp,
    stripFieldDef_idem]

/-- Field skeletons are untouched by stripping. -/
theorem fieldSkeleton_strip (f : FieldDef) :
    fieldSkeleton (stripFieldDef f) = fieldSkeleton f := by
  cases f
  rfl

/-- Type skeletons are untouched by stripping. -/
theorem typeSkeleton_strip (t : TypeDef) :
    typeSkeleton (stripTypeDef t) = typeSkeleton t := by
  cases t
  simp [typeSkeleton, stripTypeDef, List.map_map, Function.comp,
    fieldSkeleton_strip]

/-- C1: `stripDirectives` is idempotent, and its output has exactly the
type/field structure of the input — names, kinds, field types, nullability
and ordering unchanged (equal skeletons) — with precisely the custom
(non-standard) directive usages removed at both type level and field
level. -/
theorem stripDirectives_idempotent_structure (S : SchemaDocument) :
    stripDirectives (stripDirectives S) = stripDirectives S ∧
    docSkeleton (stripDirectives S) = docSkeleton S ∧
    ∀ i (hi : i < S.length), ∃ hi2 : i < (stripDirectives S).length,
      ((stripDirectives S).get ⟨i, hi2⟩).directives =
        stripUsages ((S.get ⟨i, hi⟩).directives) ∧
      ((stripDirectives S).get ⟨i, hi2⟩).fields.map
          (fun f => f.directives) =
        (S.get ⟨i, hi⟩).fields.map (fun f => stripUsages f.directives) := by
  refine ⟨?_, ?_, ?_⟩
  · simp [stripDirectives, List.map_map, Function.comp, stripTypeDef_idem]
  · simp [docSkeleton, stripDirectives, List.map_map, Function.comp,
      typeSkeleton_strip]
  · intro i hi
    have hi2 : i < (stripDirectives S).length := by
      simpa [stripDirectives] using hi
    refine ⟨hi2, ?_, ?_⟩
    · have : (stripDirectives S).get ⟨i, hi2⟩ =
          stripTypeDef (S.get ⟨i, hi⟩) := by
        simp [stripDirectives]
      rw [this]
      rfl
    · have : (stripDirectives S).get ⟨i, hi2⟩ =
          stripTypeDef (S.get ⟨i, hi⟩) := by
        simp [stripDirectives]
      rw [this]
      show ((S.get ⟨i, hi⟩).fields.map stripFieldDef).map
          (fun f => f.directives) = _
      rw [List.map_map]
      rfl

/-- C1 witness: idempotence, skeleton preservation and the indexed
directive description, on the concrete example document. -/
theorem stripDirectives_idempotent_structure_witness :
    stripDirectives (stripDirectives exDoc) = stripDirectives exDoc ∧
    docSkeleton (stripDirectives exDoc) = docSkeleton exDoc ∧
    ∃ hi2 : 0 < (stripDirectives exDoc).length,
      ((stripDirectives exDoc).get ⟨0, hi2⟩).directives =
        stripUsages ((exDoc.get ⟨0, by decide⟩).directives) ∧
      ((stripDirectives exDoc).get ⟨0, hi2⟩).fields.map
          (fun f => f.directives) =
        (exDoc.get ⟨0, by decide⟩).fields.map
          (fun f => stripUsages f.directives) :=
  ⟨(stripDirectives_idempotent_structure exDoc).1,
   (stripDirectives_idempotent_structure exDoc).2.1,
   (stripDirectives_idempotent_structure exDoc).2.2 0 (by decide)⟩

/-- C2: `collectDirectiveNames` returns a duplicate-free list whose
members are exactly the custom (non-standard) directive names occurring
anywhere in the document, at type level or field level, however many times
each occurs.  The embedding is a pure function, so the input document is
not mutated. -/
theorem collectDirectiveNames_exact (S : SchemaDocument) :
    (collectDirectiveNames S).Nodup ∧
    ∀ n, n ∈ collectDirectiveNames S ↔
      isStandardDirective n = false ∧ directiveOccursIn n S := by
  constructor
  · exact List.nodup_dedup _
  · intro n
    simp only [collectDirectiveNames, List.mem_dedup, List.mem_filter,
      List.mem_flatMap, typeDirectiveNames, List.mem_append, List.mem_map,
      Bool.not_eq_true', directiveOccursIn]
    constructor
    · rintro ⟨⟨t, ht, hd⟩, hstd⟩
      refine ⟨hstd, t, ht, ?_⟩
      rcases hd with ⟨d, hd, rfl⟩ | ⟨f, hf, d, hd, rfl⟩
      · exact Or.inl ⟨d, hd, rfl⟩
      · exact Or.inr ⟨f, hf, d, hd, rfl⟩
    · rintro ⟨hstd, t, ht, hd⟩
      refine ⟨⟨t, ht, ?_⟩, hstd⟩
      rcases hd with ⟨d, hd, rfl⟩ | ⟨f, hf, d, hd, rfl⟩
      · exact Or.inl ⟨d, hd, rfl⟩
      · exact Or.inr ⟨f, hf, d, hd, rfl⟩

/-- C2 witness: on the concrete example document the result is
duplicate-free, contains `model` (which occurs twice) and `auth`, and the
standard directive `deprecated` is not a member. -/
theorem collectDirectiveNames_exact_witness :
    (collectDirectiveNames exDoc).Nodup ∧
    "model" ∈ collectDirectiveNames exDoc ∧
    "deprecated" ∉ collectDirectiveNames exDoc :=
  ⟨(collectDirectiveNames_exact exDoc).1,
   ((collectDirectiveNames_exact exDoc).2 "model").mpr
     ⟨by decide, by decide⟩,
   fun hmem =>
     absurd (((collectDirectiveNames_exact exDoc).2 "deprecated").mp
       hmem).1 (by decide)⟩

/-! ## Lemmas on context mutation (towards claims C3, C4, C6) -/

/-- Folding actions over an appended list splits. -/
theorem applyActions_append (ctx : TransformerContext)
    (l1 l2 : List CtxAction) :
    applyActions ctx (l1 ++ l2) = applyActions (applyActions ctx l1) l2 := by
  simp [applyActions, List.foldl_append]

/-- A recorded fatal error is never overwritten or cleared by a later
action. -/
theorem applyAction_fatal_some (ctx : TransformerContext) (a : CtxAction)
    (e : TransformError) (h : ctx.fatalError = some e) :
    (applyAction ctx a).fatalError = some e := by
  cases a with
  | addResource r =>
    simp only [applyAction]
    split
    · simp [setFatal, h]
    · exact h
  | addResolverBinding f rv => exact h
  | annotateType n md => exact h
  | recordDiagnostic fatal msg =>
    simp only [applyAction]
    split
    · simp [setFatal, h]
    · exact h

/-- A recorded fatal error survives any subsequent action sequence. -/
theorem applyActions_fatal_some (l : List CtxAction)
    (ctx : TransformerContext) (e : TransformError)
    (h : ctx.fatalError = some e) :
    (applyActions ctx l).fatalError = some e := by
  induction l generalizing ctx with
  | nil => exact h
  | cons a l ih =>
    exact ih (applyAction ctx a) (applyAction_fatal_some ctx a e h)

/-- If the context is fatal-free after an action, it was fatal-free
before. -/
theorem applyAction_fatal_none_rev (ctx : TransformerContext)
    (a : CtxAction) (h : (applyAction ctx a).fatalError = none) :
    ctx.fatalError = none := by
  cases he : ctx.fatalError with
  | none => rfl
  | some e => rw [applyAction_fatal_some ctx a e he] at h; cases h

/-- If the context is fatal-free after an action sequence, it was
fatal-free before. -/
theorem applyActions_fatal_none_rev (l : List CtxAction)
    (ctx : TransformerContext)
    (h : (applyActions ctx l).fatalError = none) :
    ctx.fatalError = none := by
  cases he : ctx.fatalError with
  | none => rfl
  | some e => rw [applyActions_fatal_some l ctx e he] at h; cases h

/-- The context reached by `runHooks` is the fold of its executed
actions. -/
theorem runHooks_ctx (node : ASTNode) (u : DirectiveUsage)
    (ps : List (Nat × Transformer)) (ctx : TransformerContext) :
    (runHooks node u ps ctx).ctx =
      applyActions ctx (runHooks node u ps ctx).acts := by
  induction ps generalizing ctx with
  | nil => rfl
  | cons p rest ih =>
    obtain ⟨i, t⟩ := p
    simp only [runHooks]
    rw [applyActions_append, ← ih]

/-- The context reached by `runUsages` is the fold of its executed
actions. -/
theorem runUsages_ctx (ts : List Transformer) (node : ASTNode)
    (us : List DirectiveUsage) (ctx : TransformerContext) :
    (runUsages ts node us ctx).ctx =
      applyActions ctx (runUsages ts node us ctx).acts := by
  induction us generalizing ctx with
  | nil => rfl
  | cons u us ih =>
    simp only [runUsages]
    rw [applyActions_append, ← runHooks_ctx, ← ih]

/-- The context reached by `walkNodes` is the fold of its executed
actions. -/
theorem walkNodes_ctx (ts : List Transformer) (ns : List ASTNode)
    (ctx : TransformerContext) :
    (walkNodes ts ns ctx).ctx =
      applyActions ctx (walkNodes ts ns ctx).acts := by
  induction ns generalizing ctx with
  | nil => rfl
  | cons n ns ih =>
    simp only [walkNodes]
    split
    · exact runUsages_ctx ts n (nodeDirectives n) ctx
    · rw [applyActions_append, ← runUsages_ctx, ← ih]

/-- The context reached by the before phase is the fold of its executed
actions. -/
theorem beforePhase_ctx (ts : List Transformer)
    (ctx : TransformerContext) :
    (beforePhase ts ctx).ctx = applyActions ctx (beforePhase ts ctx).acts := by
  induction ts generalizing ctx with
  | nil => rfl
  | cons t rest ih =>
    simp only [beforePhase]
    rw [applyActions_append, ← ih]

/-- The context reached by the after phase is the fold of its executed
actions. -/
theorem afterPhase_ctx (ts : List Transformer)
    (ctx : TransformerContext) :
    (afterPhase ts ctx).ctx = applyActions ctx (afterPhase ts ctx).acts := by
  induction ts generalizing ctx with
  | nil => rfl
  | cons t rest ih =>
    simp only [afterPhase]
    rw [applyActions_append, ← ih]

/-- The context reached by a whole pipeline run is the fold of its
executed actions over the fresh context. -/
theorem runPipeline_ctx (s : SchemaDocument) (ts : List Transformer) :
    (runPipeline s ts).ctx =
      applyActions (freshContext s) (runPipeline s ts).acts := by
  simp only [runPipeline]
  split
  · rw [applyActions_append, applyActions_append, ← beforePhase_ctx]
    rw [show (applyActions (beforePhase ts (freshContext s)).ctx [] =
      (beforePhase ts (freshContext s)).ctx) from rfl]
    exact afterPhase_ctx ts _
  · rw [applyActions_append, applyActions_append, ← beforePhase_ctx,
      ← walkNodes_ctx]
    exact afterPhase_ctx ts _

/-! ## Trace lemmas and theorems for claims C3 and C6 -/

/-- The hook invocations for one directive usage are the bound
transformers in registration order, independent of the context. -/
theorem runHooks_trace (node : ASTNode) (u : DirectiveUsage)
    (ps : List (Nat × Transformer)) (ctx : TransformerContext) :
    (runHooks node u ps ctx).trace =
      ps.map (fun it => ⟨it.1, it.2.name, node, u⟩) := by
  induction ps generalizing ctx with
  | nil => rfl
  | cons p rest ih =>
    obtain ⟨i, t⟩ := p
    simp only [runHooks, List.map_cons]
    rw [ih]

/-- The hook invocations for one node iterate its directive usages in
declaration order, bound transformers inside. -/
theorem runUsages_trace (ts : List Transformer) (node : ASTNode)
    (us : List DirectiveUsage) (ctx : TransformerContext) :
    (runUsages ts node us ctx).trace =
      us.flatMap (fun u => (boundTransformers ts u.name).map
        (fun it => ⟨it.1, it.2.name, node, u⟩)) := by
  induction us generalizing ctx with
  | nil => rfl
  | cons u us ih =>
    simp only [runUsages, List.flatMap_cons]
    rw [runHooks_trace, ih]

/-- When the walk finishes without a fatal error, its trace is the full
nested iteration over nodes, usages and bound transformers. -/
theorem walkNodes_trace (ts : List Transformer) (ns : List ASTNode)
    (ctx : TransformerContext)
    (h : (walkNodes ts ns ctx).ctx.fatalError = none) :
    (walkNodes ts ns ctx).trace =
      ns.flatMap (fun n => (nodeDirectives n).flatMap (fun u =>
        (boundTransformers ts u.name).map
          (fun it => ⟨it.1, it.2.name, n, u⟩))) := by
  induction ns generalizing ctx with
  | nil => rfl
  | cons n ns ih =>
    simp only [walkNodes] at h ⊢
    by_cases hb :
        (runUsages ts n (nodeDirectives n) ctx).ctx.fatalError.isSome = true
    · rw [if_pos hb] at h
      rw [h] at hb
      simp at hb
    · rw [if_neg hb] at h ⊢
      have h2 : (walkNodes ts ns
          (runUsages ts n (nodeDirectives n) ctx).ctx).ctx.fatalError =
          none := h
      show (runUsages ts n (nodeDirectives n) ctx).trace ++
          (walkNodes ts ns (runUsages ts n (nodeDirectives n) ctx).ctx).trace
          = _
      rw [List.flatMap_cons, runUsages_trace, ih _ h2]

/-- C6: on a run that completes without a fatal error, the hook dispatch
order is exactly the canonical order of §4.6 step 5 — nodes in declaration
order; per node, directive usages in declaration order (outer loop); per
usage, every transformer bound to that directive's name in registration
order (inner loop).  In particular two transformers bound to the same
directive both run, in registration order, before the next directive usage
is processed, and the order is a deterministic function of the document
and the registration list. -/
theorem dispatch_order_canonical (S : SchemaDocument)
    (ts : List Transformer)
    (h : (runPipeline S ts).ctx.fatalError = none) :
    (runPipeline S ts).trace = canonicalTrace S ts := by
  have h2 := h
  simp only [runPipeline] at h2 ⊢
  by_cases hb :
      (beforePhase ts (freshContext S)).ctx.fatalError.isSome = true
  · rw [if_pos hb] at h2
    rw [afterPhase_ctx] at h2
    have hc := applyActions_fatal_none_rev _ _ h2
    have hc2 : (beforePhase ts (freshContext S)).ctx.fatalError = none := hc
    rw [hc2] at hb
    simp at hb
  · rw [if_neg hb] at h2 ⊢
    rw [afterPhase_ctx] at h2
    have hw : (walkNodes ts (nodesOf S)
        (beforePhase ts (freshContext S)).ctx).ctx.fatalError = none :=
      applyActions_fatal_none_rev _ _ h2
    show (walkNodes ts (nodesOf S)
        (beforePhase ts (freshContext S)).ctx).trace = _
    rw [walkNodes_trace _ _ _ hw, canonicalTrace]

/-- C6 witness: a concrete run with two transformers registered for the
same directive; the trace equals the canonical dispatch order. -/
theorem dispatch_order_canonical_witness :
    (runPipeline exDoc2 exTransformersPair).trace =
      canonicalTrace exDoc2 exTransformersPair :=
  dispatch_order_canonical exDoc2 exTransformersPair (by decide)

/-- C3: when some collected directive name has no bound transformer among
the registered ones, `transform` returns `UnknownDirectiveError`
immediately: the result is an error, so no artifact (partial or otherwise)
is produced, and the error is computed before any context exists, so no
context mutation is performed. -/
theorem transform_unbound_directive_fails (S : SchemaDocument)
    (ts : List Transformer)
    (h : ∃ d ∈ collectDirectiveNames S, ∀ t ∈ ts, d ∉ t.boundDirectives) :
    ∃ d, transform S ts =
      Except.error (TransformError.unknownDirectiveError d) := by
  obtain ⟨d, hd, hall⟩ := h
  have hsome : (firstUnboundDirective S ts).isSome := by
    rw [firstUnboundDirective, List.find?_isSome]
    refine ⟨d, hd, ?_⟩
    simp only [Bool.not_eq_true']
    rw [List.any_eq_false]
    intro t ht hc
    exact hall t ht (List.elem_iff.mp hc)
  obtain ⟨d0, hd0⟩ := Option.isSome_iff_exists.mp hsome
  exact ⟨d0, by simp [transform, hd0]⟩

/-- C3 witness: the example document uses `@model` but no transformer is
registered, so `transform` fails with an unknown-directive error. -/
theorem transform_unbound_directive_fails_witness :
    ∃ d, transform exDoc2 [] =
      Except.error (TransformError.unknownDirectiveError d) :=
  transform_unbound_directive_fails exDoc2 []
    ⟨"model", by decide, by simp⟩

/-! ## Lemmas and theorem for claim C4 -/

/-- Unfolding step for action folds. -/
theorem applyActions_cons (ctx : TransformerContext) (a : CtxAction)
    (l : List CtxAction) :
    applyActions ctx (a :: l) = applyActions (applyAction ctx a) l := rfl

/-- In the absence of fatal diagnostics, a single action can only leave
the fatal slot empty or holding a resource-name collision. -/
theorem applyAction_fatal_kind (ctx : TransformerContext) (a : CtxAction)
    (ha : (match a with
      | CtxAction.recordDiagnostic true _ => true
      | _ => false) = false)
    (h0 : ctx.fatalError = none ∨
      ∃ n, ctx.fatalError =
        some (TransformError.resourceNameCollisionError n)) :
    (applyAction ctx a).fatalError = none ∨
      ∃ n, (applyAction ctx a).fatalError =
        some (TransformError.resourceNameCollisionError n) := by
  cases a with
  | addResource r =>
    simp only [applyAction]
    split
    · rcases h0 with h0 | ⟨n, h0⟩
      · exact Or.inr ⟨r.name, by simp [setFatal, h0]⟩
      · exact Or.inr ⟨n, by simp [setFatal, h0]⟩
    · exact h0
  | addResolverBinding f rv => exact h0
  | annotateType n md => exact h0
  | recordDiagnostic fatal msg =>
    cases fatal with
    | true => simp at ha
    | false => exact h0

/-- In the absence of fatal diagnostics, an action sequence can only leave
the fatal slot empty or holding a resource-name collision. -/
theorem applyActions_fatal_kind (l : List CtxAction)
    (ctx : TransformerContext) (hfd : hasFatalDiagnostic l = false)
    (h0 : ctx.fatalError = none ∨
      ∃ n, ctx.fatalError =
        some (TransformError.resourceNameCollisionError n)) :
    (applyActions ctx l).fatalError = none ∨
      ∃ n, (applyActions ctx l).fatalError =
        some (TransformError.resourceNameCollisionError n) := by
  induction l generalizing ctx with
  | nil => exact h0
  | cons a l ih =>
    simp only [hasFatalDiagnostic, List.any_cons,
      Bool.or_eq_false_iff] at hfd
    rw [applyActions_cons]
    refine ih (applyAction ctx a) ?_ (applyAction_fatal_kind ctx a hfd.1 h0)
    simp only [hasFatalDiagnostic]
    exact hfd.2

/-- A fatal-free fold adds exactly the requested resource names, and keeps
resource names duplicate-free when they start out duplicate-free. -/
theorem applyActions_resources (l : List CtxAction)
    (ctx : TransformerContext)
    (hfin : (applyActions ctx l).fatalError = none) :
    (applyActions ctx l).resources.map (fun r => r.name) =
      ctx.resources.map (fun r => r.name) ++ addedNames l ∧
    ((ctx.resources.map (fun r => r.name)).Nodup →
      ((applyActions ctx l).resources.map (fun r => r.name)).Nodup) := by
  induction l generalizing ctx with
  | nil => exact ⟨by simp [applyActions, addedNames], fun hnd => hnd⟩
  | cons a l ih =>
    rw [applyActions_cons] at hfin ⊢
    have hmid : (applyAction ctx a).fatalError = none :=
      applyActions_fatal_none_rev l _ hfin
    have hctx : ctx.fatalError = none :=
      applyAction_fatal_none_rev _ _ hmid
    cases a with
    | addResource r =>
      have hnc : ctx.resources.any (fun r0 => r0.name == r.name) = false := by
        by_contra hc
        rw [Bool.not_eq_false] at hc
        have hfatal : (applyAction ctx (CtxAction.addResource r)).fatalError
            = some (TransformError.resourceNameCollisionError r.name) := by
          simp [applyAction, hc, setFatal, hctx]
        rw [hfatal] at hmid
        cases hmid
      have happ : applyAction ctx (CtxAction.addResource r) =
          { ctx with resources := ctx.resources ++ [r] } := by
        simp [applyAction, hnc]
      rw [happ] at hfin ⊢
      have ih2 := ih { ctx with resources := ctx.resources ++ [r] } hfin
      have hnames : addedNames (CtxAction.addResource r :: l) =
          r.name :: addedNames l := rfl
      refine ⟨?_, ?_⟩
      · rw [ih2.1, hnames]
        simp [List.map_append]
      · intro hnd
        apply ih2.2
        have hnotmem : r.name ∉ ctx.resources.map (fun r => r.name) := by
          intro hmem
          obtain ⟨r0, hr0, hr0n⟩ := List.mem_map.mp hmem
          rw [List.any_eq_false] at hnc
          exact hnc r0 hr0 (by simp [hr0n])
        simp only [List.map_append, List.map_cons, List.map_nil]
        exact List.Nodup.append hnd (List.nodup_singleton _)
          (List.disjoint_singleton.mpr hnotmem)
    | addResolverBinding f rv =>
      have ih2 := ih
        { ctx with resolverBindings := ctx.resolverBindings ++ [(f, rv)] }
        hfin
      exact ⟨ih2.1, ih2.2⟩
    | annotateType n md =>
      have ih2 := ih
        { ctx with typeMetadata := annotateMeta ctx.typeMetadata n md }
        hfin
      exact ⟨ih2.1, ih2.2⟩
    | recordDiagnostic fatal msg =>
      cases fatal with
      | true =>
        exfalso
        have hfatal : (applyAction ctx
            (CtxAction.recordDiagnostic true msg)).fatalError =
            some (TransformError.transformerError msg) := by
          simp [applyAction, setFatal, hctx]
        rw [hfatal] at hmid
        cases hmid
      | false =>
        have ih2 := ih
          { ctx with diagnostics := ctx.diagnostics ++ [(false, msg)] }
          hfin
        exact ⟨ih2.1, ih2.2⟩

/-- C4: in a pipeline run (all directives bound) in which two add-resource
calls use the same resource name and no transformer records a fatal
diagnostic of its own, `transform` returns `ResourceNameCollisionError` as
its fatal result; and in general the offending second add-resource call
itself fails with `ResourceNameCollisionError` and adds nothing. -/
theorem resource_name_collision_fatal (S : SchemaDocument)
    (ts : List Transformer)
    (hnb : firstUnboundDirective S ts = none)
    (hnf : hasFatalDiagnostic (runPipeline S ts).acts = false)
    (hdup : ¬ (addedNames (runPipeline S ts).acts).Nodup) :
    (∃ n, transform S ts =
      Except.error (TransformError.resourceNameCollisionError n)) ∧
    ∀ (ctx : TransformerContext) (r : Resource),
      ctx.resources.any (fun r0 => r0.name == r.name) = true →
      (applyAction ctx (CtxAction.addResource r)).resources =
        ctx.resources ∧
      (ctx.fatalError = none →
        (applyAction ctx (CtxAction.addResource r)).fatalError =
          some (TransformError.resourceNameCollisionError r.name)) := by
  constructor
  · cases hfe : (runPipeline S ts).ctx.fatalError with
    | none =>
      exfalso
      have hfold : (applyActions (freshContext S)
          (runPipeline S ts).acts).fatalError = none := by
        rw [← runPipeline_ctx]
        exact hfe
      have hres := applyActions_resources (runPipeline S ts).acts
        (freshContext S) hfold
      have hnd := hres.2 (by simp [freshContext])
      rw [hres.1] at hnd
      simp only [freshContext, List.map_nil, List.nil_append] at hnd
      exact hdup hnd
    | some e =>
      have hkind := applyActions_fatal_kind (runPipeline S ts).acts
        (freshContext S) hnf (Or.inl (by simp [freshContext]))
      rw [← runPipeline_ctx] at hkind
      rcases hkind with hnone | ⟨n, hn⟩
      · rw [hfe] at hnone
        cases hnone
      · rw [hfe] at hn
        obtain rfl := Option.some.inj hn
        exact ⟨n, by simp [transform, hnb, hfe]⟩
  · intro ctx r hc
    refine ⟨?_, ?_⟩
    · simp only [applyAction, if_pos hc]
      cases he : ctx.fatalError <;> simp [setFatal, he]
    · intro hctx
      simp [applyAction, hc, setFatal, hctx]

/-- C4 witness: two registered transformers both add a resource named `X`;
the run fails with a resource-name collision. -/
theorem resource_name_collision_fatal_witness :
    ∃ n, transform exDoc2 exCollidingTransformers =
      Except.error (TransformError.resourceNameCollisionError n) :=
  (resource_name_collision_fatal exDoc2 exCollidingTransformers
    (by decide) (by decide) (by decide)).1

/-! ## Theorem for claim C5 -/

/-- C5: whenever the migration plan computed by `migrateAPIProject`
contains any delete or update classified data-destructive and
`confirmDestructive` is false, the call fails with
`MigrationConflictError` and the persisted project state is the input
state, entirely unchanged — nothing of the plan is applied. -/
theorem migrate_destructive_unconfirmed_fails (dd : Resource → Bool)
    (du : Resource → Resource → Bool) (cur : ProjectState)
    (newSchema : SchemaDocument) (ts : List Transformer)
    (art : TransformSuccess)
    (hok : transform newSchema ts = Except.ok art)
    (hdes : hasDestructiveChange
      (computePlan dd du cur.artifact art.artifact) = true) :
    migrateAPIProject dd du cur newSchema ts false =
      (MigrateOutcome.failure TransformError.migrationConflictError,
        cur) := by
  simp [migrateAPIProject, hok, hdes]

/-- C5 witness: migrating from a state holding one stateful storage
resource to an empty schema with no transformers plans a destructive
delete; unconfirmed, the call fails and returns the input state. -/
theorem migrate_destructive_unconfirmed_fails_witness :
    migrateAPIProject (fun r => r.stateful) (fun _ _ => false)
      ⟨⟨[("storage", [⟨"X", "storage", "d", true⟩])], []⟩, none⟩ [] []
      false =
      (MigrateOutcome.failure TransformError.migrationConflictError,
        ⟨⟨[("storage", [⟨"X", "storage", "d", true⟩])], []⟩, none⟩) :=
  migrate_destructive_unconfirmed_fails (fun r => r.stateful)
    (fun _ _ => false)
    ⟨⟨[("storage", [⟨"X", "storage", "d", true⟩])], []⟩, none⟩ [] []
    ⟨⟨[], []⟩, []⟩ rfl (by decide)
